import Mathlib

/-!
Verification of the firm agent in `examples/economy/firm.py`.

The Python class `Firm` (and its subclass `ConsumerGoodFirm`) is shallowly
embedded here.  The mutable keyed state dictionary becomes the record
`FirmState`; constructor parameters become `FirmParams`.  Worker agents are
identified by natural numbers; their employer and wage fields (which live on
the worker agents in the Python code and are read or written through the
messaging layer) are modelled by the `emp` and `wageOf` maps of `EconState`.
Python numbers are modelled by `ℚ` (ints stay exact; the code does no
float-specific operation).  `random.choice` and the external learner and
scipy optimizer are modelled as explicit oracle parameters, so every theorem
quantifies over all of their possible answers.  Operations that can raise an
exception in Python (division by zero, `list.remove` on a missing element,
`random.choice` on an empty list) return `Option`.
-/

namespace Cess

/-- Constructor parameters of `Firm.__init__`. -/
structure FirmParams where
  material_cost_per_good : ℚ
  labor_cost_per_good : ℚ
  labor_per_equipment : ℚ
  labor_per_worker : ℚ
  supply_increment : ℚ
  profit_increment : ℚ
  wage_increment : ℚ

/-- The firm's keyed state dictionary (`self[...]` in the Python code). -/
structure FirmState where
  desired_supply : ℚ
  desired_equipment : ℚ
  worker_change : ℤ
  workers : List ℕ
  cash : ℚ
  revenue : ℚ
  costs : ℚ
  price : ℚ
  profit : ℚ
  prev_profit : ℚ
  leftover : ℚ
  supply : ℚ
  n_sold : ℚ
  profit_margin : ℚ
  equipment : ℚ
  materials : ℚ

/-- The firm's state together with the worker-side state it reads and writes
through the messaging layer: each worker's current employer (a firm id) and
current wage. -/
structure EconState where
  firm : FirmState
  emp : ℕ → Option ℕ
  wageOf : ℕ → ℚ

/-- Embeds `Firm._worker_labor`: `labor_per_worker * len(workers)`. -/
def worker_labor (P : FirmParams) (f : FirmState) : ℚ :=
  P.labor_per_worker * f.workers.length

/-- Embeds `Firm._equipment_labor`: `min(len(workers), equipment) * labor_per_equipment`. -/
def equipment_labor (P : FirmParams) (f : FirmState) : ℚ :=
  min (f.workers.length : ℚ) f.equipment * P.labor_per_equipment

/-- Embeds `Firm._labor`: total productive labor. -/
def labor (P : FirmParams) (f : FirmState) : ℚ :=
  worker_labor P f + equipment_labor P f

/-- Embeds `Firm._labor_for_equipment`: hypothetical labor for a target equipment count. -/
def labor_for_equipment (P : FirmParams) (f : FirmState) (equipment : ℚ) : ℚ :=
  worker_labor P f + min (f.workers.length : ℚ) equipment * P.labor_per_equipment

/-- Embeds `Firm._production_capacity`: `floor(labor / labor_cost_per_good)`. -/
def production_capacity (P : FirmParams) (f : FirmState) : ℤ :=
  ⌊labor P f / P.labor_cost_per_good⌋

/-- The labor formula of `_labor` as a function of an arbitrary worker count
`W` and equipment amount `E` (the code reads `len(self['workers'])` and
`self['equipment']` for these). -/
def totalLabor (P : FirmParams) (W : ℕ) (E : ℚ) : ℚ :=
  P.labor_per_worker * W + min (W : ℚ) E * P.labor_per_equipment

/-- C8: total labor is monotone in the worker count and in the equipment
count, and equipment beyond the worker count contributes nothing. -/
theorem totalLabor_monotone (P : FirmParams)
    (hw : 0 ≤ P.labor_per_worker) (he : 0 ≤ P.labor_per_equipment) :
    (∀ W W' : ℕ, ∀ E : ℚ, W ≤ W' → totalLabor P W E ≤ totalLabor P W' E) ∧
    (∀ W : ℕ, ∀ E E' : ℚ, E ≤ E' → totalLabor P W E ≤ totalLabor P W E') ∧
    (∀ W : ℕ, ∀ E : ℚ, (W : ℚ) ≤ E → totalLabor P W E = totalLabor P W (W : ℚ)) := by
  refine ⟨?_, ?_, ?_⟩
  · intro W W' E hWW
    have hc : (W : ℚ) ≤ (W' : ℚ) := by exact_mod_cast hWW
    have h1 : P.labor_per_worker * W ≤ P.labor_per_worker * W' :=
      mul_le_mul_of_nonneg_left hc hw
    have h2 : min (W : ℚ) E ≤ min (W' : ℚ) E := min_le_min hc le_rfl
    have h3 : min (W : ℚ) E * P.labor_per_equipment
        ≤ min (W' : ℚ) E * P.labor_per_equipment :=
      mul_le_mul_of_nonneg_right h2 he
    unfold totalLabor
    linarith
  · intro W E E' hEE
    have h2 : min (W : ℚ) E ≤ min (W : ℚ) E' := min_le_min le_rfl hEE
    have h3 : min (W : ℚ) E * P.labor_per_equipment
        ≤ min (W : ℚ) E' * P.labor_per_equipment :=
      mul_le_mul_of_nonneg_right h2 he
    unfold totalLabor
    linarith
  · intro W E hWE
    unfold totalLabor
    rw [min_eq_left hWE, min_eq_left le_rfl]

/-- Embeds `Firm.pay`: debit cash, accumulate costs. -/
def pay (f : FirmState) (cost : ℚ) : FirmState :=
  { f with cash := f.cash - cost, costs := f.costs + cost }

/-- The body of `Firm.fire` once the `remove` is known to succeed:
`self['workers'].remove(worker)` then `worker.call('quit')` (which clears the
worker's employer field). -/
def fireWorker (st : EconState) (w : ℕ) : EconState :=
  { st with
    firm := { st.firm with workers := st.firm.workers.erase w },
    emp := fun v => if v = w then none else st.emp v }

/-- Embeds `Firm.fire`.  Python `list.remove` raises `ValueError` when the element
is absent, hence the `Option`. -/
def fire (st : EconState) (w : ℕ) : Option EconState :=
  if w ∈ st.firm.workers then some (fireWorker st w) else none

/-- The loop of `Firm.shutdown`: `for worker in self['workers']: self.fire(worker)`.
A Python `for` over a list walks an internal index `i` and re-reads the
(mutated) list at each step, stopping once `i` reaches the current length;
the body's `fire` always succeeds because the element was just read from the
list.  Returns the final state and the list of workers that received a
fire/quit instruction. -/
def shutdownAux (i : ℕ) (st : EconState) (fired : List ℕ) : EconState × List ℕ :=
  if h : i < st.firm.workers.length then
    let w := st.firm.workers[i]
    shutdownAux (i+1) (fireWorker st w) (fired ++ [w])
  else (st, fired)
termination_by st.firm.workers.length - i
decreasing_by
  have hm : st.firm.workers[i] ∈ st.firm.workers := List.getElem_mem h
  show (st.firm.workers.erase st.firm.workers[i]).length - (i+1)
    < st.firm.workers.length - i
  rw [List.length_erase_of_mem hm]
  omega

/-- Embeds `Firm.shutdown`. -/
def shutdown (st : EconState) : EconState × List ℕ :=
  shutdownAux 0 st []

/-- Embeds `Firm.sell`: sell up to the available supply; note that `revenue` is
assigned (not accumulated) while `n_sold` and `cash` accumulate. -/
def sell (st : EconState) (quantity : ℚ) : EconState × ℚ :=
  let n_sold := min st.firm.supply quantity
  ({ st with firm := { st.firm with
      supply := st.firm.supply - n_sold,
      n_sold := st.firm.n_sold + n_sold,
      revenue := st.firm.price * n_sold,
      cash := st.firm.cash + st.firm.price * n_sold } }, n_sold)

/-- Embeds `Firm.produce`: clamp supply to `max(1, min(desired_supply, capacity))`,
pay wages, set `price = max(0, costs/supply + profit_margin)`; returns the
`(supply, price)` pair the Python method returns. -/
def produce (P : FirmParams) (st : EconState) : EconState × ℚ × ℚ :=
  let f := st.firm
  let supply2 := max 1 (min f.desired_supply ((production_capacity P f : ℤ) : ℚ))
  let wages := (f.workers.map st.wageOf).sum
  let costs2 := f.costs + wages
  let cash2 := f.cash - wages
  let cost_per_unit := costs2 / supply2
  let price2 := max 0 (cost_per_unit + f.profit_margin)
  ({ st with firm := { f with
      supply := supply2, costs := costs2, cash := cash2, price := price2 } },
   supply2, price2)

/-- Embeds `Firm.curren`: the outcome classifier; `none` models Python's implicit
`None` when no branch matches. -/
def curren (f : FirmState) : Option ℕ :=
  if f.n_sold = 0 then some 0
  else if f.n_sold > 0 ∧ f.leftover > 0 then some 1
  else if f.n_sold > 0 ∧ f.leftover = 0 ∧ f.profit ≤ 0 then some 2
  else if f.n_sold > 0 ∧ f.leftover = 0 ∧ f.profit > 0 ∧ f.profit - f.prev_profit < 0 then some 3
  else if f.n_sold > 0 ∧ f.leftover = 0 ∧ f.profit > 0 ∧ f.profit - f.prev_profit ≥ 0 then some 4
  else none

/-- The local `total_equipment_cost` of `Firm.purchase_equipment`:
cost of acquiring the full equipment shortfall at the supplier's price. -/
def total_equipment_cost (st : EconState) (price : ℚ) : ℚ :=
  (st.firm.desired_equipment - st.firm.equipment) * price

/-- The budget/division pair shared by both purchase methods:
`budget = max(0, min(cash, total_cost))`, quantity `floor(budget / price)`. -/
def affordable (cash cost price : ℚ) : ℚ :=
  ((⌊max 0 (min cash cost) / price⌋ : ℤ) : ℚ)

/-- Embeds `Firm.purchase_equipment`, with the supplier's `price`/`supply` snapshot
passed in.  The zero-cost branch buys the clamped shortfall outright; the
other branch divides the clamped budget by the price, which in Python would
raise `ZeroDivisionError` on a zero price, hence the `Option`.  Returns the
new state, the remaining shortfall, and the amount purchased. -/
def purchase_equipment (st : EconState) (price supply : ℚ) :
    Option (EconState × ℚ × ℚ) :=
  let n_equipment? : Option ℚ :=
    if total_equipment_cost st price = 0 then
      some (max 0 (st.firm.desired_equipment - st.firm.equipment))
    else if price = 0 then none
    else some (affordable st.firm.cash (total_equipment_cost st price) price)
  n_equipment?.map fun n_equipment =>
    let to_purchase := min supply n_equipment
    let f2 := pay { st.firm with equipment := st.firm.equipment + to_purchase }
      (to_purchase * price)
    ({ st with firm := f2 }, f2.desired_equipment - f2.equipment, to_purchase)

/-- The local `capacity_given_labor` of `ConsumerGoodFirm.purchase_materials`:
capacity assuming all desired equipment is acquired. -/
def capacity_given_labor (P : FirmParams) (f : FirmState) : ℤ :=
  ⌊labor_for_equipment P f f.desired_equipment / P.labor_cost_per_good⌋

/-- The desired supply after `purchase_materials` caps it by labor capacity. -/
def adjusted_desired_supply (P : FirmParams) (f : FirmState) : ℚ :=
  min ((capacity_given_labor P f : ℤ) : ℚ) f.desired_supply

/-- The local `required_materials` of `ConsumerGoodFirm.purchase_materials`. -/
def required_materials (P : FirmParams) (f : FirmState) : ℚ :=
  P.material_cost_per_good * adjusted_desired_supply P f

/-- The local `total_material_cost` of `ConsumerGoodFirm.purchase_materials`. -/
def total_material_cost (P : FirmParams) (f : FirmState) (price : ℚ) : ℚ :=
  (required_materials P f - f.materials) * price

/-- Embeds `ConsumerGoodFirm.purchase_materials`.  Here `none` models the Python
exceptions (division by a zero `labor_cost_per_good` in the capacity
computation, or by a zero price in the budget computation). -/
def purchase_materials (P : FirmParams) (st : EconState) (price supply : ℚ) :
    Option (EconState × ℚ × ℚ) :=
  if P.labor_cost_per_good = 0 then none
  else
    let f1 := { st.firm with desired_supply := adjusted_desired_supply P st.firm }
    let n_materials? : Option ℚ :=
      if total_material_cost P st.firm price = 0 then
        some (max 0 (required_materials P st.firm - st.firm.materials))
      else if price = 0 then none
      else some (affordable st.firm.cash (total_material_cost P st.firm price) price)
    n_materials?.map fun n_materials =>
      let to_purchase := min supply n_materials
      let f2 := pay { f1 with materials := f1.materials + to_purchase } (to_purchase * price)
      ({ st with firm := f2 }, required_materials P st.firm - f2.materials, to_purchase)

/-- The inequality constraint handed to the optimizer in `Firm.assess_assets`
(`constraint(x) >= 0`), over a solution vector `(n_workers, wage, n_equipment)`. -/
def assessConstraint (P : FirmParams) (required_labor : ℚ) (x : ℚ × ℚ × ℚ) : ℚ :=
  x.1 * P.labor_per_worker
    + min (x.1 * P.labor_per_equipment) (x.2.2 * P.labor_per_equipment)
    - required_labor

/-- The rounding step of `Firm.assess_assets`:
`np.ceil(results.x).astype(np.int)` applied to the optimizer's real-valued
solution vector, which is an oracle parameter here. -/
def assess_assets (x : ℚ × ℚ × ℚ) : ℤ × ℤ × ℤ := (⌈x.1⌉, ⌈x.2.1⌉, ⌈x.2.2⌉)

/-- The initial state dictionary of `Firm.__init__`. -/
def baseFirm : FirmState :=
  { desired_supply := 1, desired_equipment := 0, worker_change := 0, workers := [],
    cash := 50000, revenue := 0, costs := 0, price := 0, profit := 0, prev_profit := 0,
    leftover := 0, supply := 0, n_sold := 0, profit_margin := 1, equipment := 0,
    materials := 0 }

/-- A fresh firm in a world where no worker is employed and all wages are 0. -/
def baseEcon : EconState :=
  { firm := baseFirm, emp := fun _ => none, wageOf := fun _ => 0 }

/-- Unit costs and labor coefficients all equal to 1. -/
def P1 : FirmParams := ⟨1, 1, 1, 1, 1, 1, 1⟩

/-- Lines 84–86 of `Firm.hire`: query the applicant's current employer and,
if it has one, instruct that employer to fire it.  When the employer is this
very firm, the fire call removes the worker from this firm's roster; in
either case the worker's `quit` clears its employer field.  (Another firm's
roster is outside this state.) -/
def poach (selfId : ℕ) (st : EconState) (w : ℕ) : EconState :=
  if st.emp w = none then st
  else if st.emp w = some selfId then fireWorker st w
  else { st with emp := fun v => if v = w then none else st.emp v }

/-- One iteration of the hiring loop after the applicant `w` was drawn:
poach it if employed, have it join this firm at the offered wage
(`worker.call('hire', AgentProxy(self), wage)` sets its employer and wage),
append it to the roster and decrement the vacancy counter. -/
def hireStep (selfId : ℕ) (wage : ℚ) (st : EconState) (w : ℕ) : EconState :=
  let st1 := poach selfId st w
  let st2 := { st1 with
    emp := fun v => if v = w then some selfId else st1.emp v,
    wageOf := fun v => if v = w then wage else st1.wageOf v }
  { st2 with firm := { st2.firm with
    workers := st2.firm.workers ++ [w],
    worker_change := st.firm.worker_change - 1 } }

/-- The `while self['worker_change'] > 0 and applicants` loop of `Firm.hire`.
`random.choice` is modelled by the oracle: at step `k` it picks index
`oracle k % len(applicants)`.  Each chosen applicant is (possibly) poached,
then told to join this firm at the offered wage, removed from the applicant
pool (`list.remove`: first occurrence) and appended to the roster; the
vacancy counter is decremented.  Returns the final state, the remaining
applicant pool and the accumulated `hired` list. -/
def hireAux (selfId : ℕ) (oracle : ℕ → ℕ) (wage : ℚ) (k : ℕ) (st : EconState)
    (applicants hired : List ℕ) : EconState × List ℕ × List ℕ :=
  if h : 0 < st.firm.worker_change ∧ applicants ≠ [] then
    let w := applicants.get
      ⟨oracle k % applicants.length, Nat.mod_lt _ (List.length_pos.mpr h.2)⟩
    hireAux selfId oracle wage (k+1) (hireStep selfId wage st w)
      (applicants.erase w) (hired ++ [w])
  else (st, applicants, hired)
termination_by st.firm.worker_change.toNat
decreasing_by
  show (st.firm.worker_change - 1).toNat < st.firm.worker_change.toNat
  have h1 := h.1
  omega

/-- Embeds `Firm.hire`.  Returns
`(state, hired, remaining applicants, residual vacancies, next wage)`;
the Python method returns the last three components (`hired`,
`self['worker_change']`, `wage`) and mutates the rest in place. -/
def hire (P : FirmParams) (selfId : ℕ) (oracle : ℕ → ℕ) (st : EconState)
    (applicants : List ℕ) (wage : ℚ) : EconState × List ℕ × List ℕ × ℤ × ℚ :=
  let r := hireAux selfId oracle wage 0 st applicants []
  (r.1, r.2.2, r.2.1, r.1.firm.worker_change,
    if 0 < r.1.firm.worker_change then wage + P.wage_increment else wage)

/-- Embeds `Firm.actions`: the six `(supply delta, profit-margin delta)` pairs
(`action.get('profit_margin', 0)` makes the missing margin delta 0). -/
def actionsList (P : FirmParams) : List (ℚ × ℚ) :=
  [(P.supply_increment, 0), (-P.supply_increment, 0),
   (P.supply_increment, P.profit_increment), (P.supply_increment, -P.profit_increment),
   (-P.supply_increment, P.profit_increment), (-P.supply_increment, -P.profit_increment)]

/-- One iteration of the firing loop of `Firm.set_production_target`:
`self.fire(worker)` (always succeeds, the worker was drawn from the roster)
then `self['worker_change'] += 1`. -/
def fireOneSPT (st : EconState) (w : ℕ) : EconState :=
  let st2 := fireWorker st w
  { st2 with firm := { st2.firm with worker_change := st2.firm.worker_change + 1 } }

/-- The `while self['worker_change'] < 0` firing loop at the end of
`Firm.set_production_target`; `random.choice` on an empty roster would raise
in Python, hence the `Option`. -/
def fireLoopSPT (oracle : ℕ → ℕ) (k : ℕ) (st : EconState) : Option EconState :=
  if h : st.firm.worker_change < 0 then
    if hne : st.firm.workers = [] then none
    else
      let w := st.firm.workers.get
        ⟨oracle k % st.firm.workers.length, Nat.mod_lt _ (List.length_pos.mpr hne)⟩
      fireLoopSPT oracle (k+1) (fireOneSPT st w)
  else some st
termination_by (-st.firm.worker_change).toNat
decreasing_by
  show (-(st.firm.worker_change + 1)).toNat < (-st.firm.worker_change).toNat
  omega

/-- Embeds `Firm.set_production_target`.  The learner's `choose_action` answer is the
oracle `actionIdx`; the scipy minimizer's real-valued solution vector (which
`assess_assets` rounds) is the oracle `x`; the firing loop's `random.choice`
draws through `oracle`.  Returns the new state and the returned
`(worker_change, wage)` pair. -/
def set_production_target (P : FirmParams) (actionIdx : Fin 6) (x : ℚ × ℚ × ℚ)
    (oracle : ℕ → ℕ) (st : EconState) : Option (EconState × ℤ × ℤ) :=
  let f1 := { st.firm with prev_profit := st.firm.profit, leftover := st.firm.supply }
  let action := (actionsList P).get
    ⟨actionIdx.1, by simp [actionsList]⟩
  let f2 := { f1 with
    desired_supply := max 1 (f1.desired_supply + action.1),
    profit_margin := f1.profit_margin + action.2 }
  let f3 := { f2 with supply := 0, materials := 0, n_sold := 0, revenue := 0, costs := 0 }
  let a := assess_assets x
  let n_workers : ℤ := max a.1 0
  let f4 := { f3 with
    worker_change := n_workers - (f3.workers.length : ℤ),
    desired_equipment := f3.equipment + max 0 (((a.2.2 : ℤ) : ℚ) - f3.equipment) }
  (fireLoopSPT oracle 0 { st with firm := f4 }).map fun st2 =>
    (st2, st2.firm.worker_change, a.2.1)

/-- A repeated `sell` within one step, as driven by incoming purchase calls. -/
def sellSeq (st : EconState) (qs : List ℚ) : EconState :=
  qs.foldl (fun s q => (sell s q).1) st

/-- A firm with one worker (at wage 0), no costs and a negative profit margin;
used to exhibit the price clamping of `produce`. -/
def stNegMargin : EconState :=
  { baseEcon with firm := { baseFirm with workers := [7], profit_margin := -5 } }

/-- A firm short 5 units of equipment, used against a zero-price supplier
with only 2 units of supply. -/
def stShort : EconState :=
  { baseEcon with firm := { baseFirm with desired_equipment := 5 } }

/-- A fresh firm with two vacancies to fill. -/
def stHire : EconState :=
  { baseEcon with firm := { baseFirm with worker_change := 2 } }

/-- The five outcome rules in the priority-resolved form stated by the spec:
0 nothing sold; 1 sold with leftover; 2 sold out at a loss; 3 sold out,
profitable but declining; 4 sold out, profitable and not declining. -/
def currenSpecRule (f : FirmState) : ℕ → Prop
  | 0 => f.n_sold = 0
  | 1 => 0 < f.n_sold ∧ 0 < f.leftover
  | 2 => 0 < f.n_sold ∧ f.leftover = 0 ∧ f.profit ≤ 0
  | 3 => 0 < f.n_sold ∧ f.leftover = 0 ∧ 0 < f.profit ∧ f.profit < f.prev_profit
  | 4 => 0 < f.n_sold ∧ f.leftover = 0 ∧ 0 < f.profit ∧ f.prev_profit ≤ f.profit
  | _ => False

/-- C3: on the domain `n_sold ≥ 0`, `leftover ≥ 0` the classifier is total and
deterministic: exactly one of the five priority-resolved rules holds, and
`curren` returns exactly the code of the rule that holds. -/
theorem curren_total_deterministic (f : FirmState)
    (h1 : 0 ≤ f.n_sold) (h2 : 0 ≤ f.leftover) :
    (∃! c, currenSpecRule f c) ∧ ∀ c, currenSpecRule f c → curren f = some c := by
  have hA : ∀ c, currenSpecRule f c → curren f = some c := by
    intro c hc
    rcases c with _ | _ | _ | _ | _ | n <;> simp only [currenSpecRule] at hc
    · simp [curren, hc]
    · obtain ⟨ha, hb⟩ := hc
      have hns : ¬ f.n_sold = 0 := ne_of_gt ha
      simp [curren, hns, ha, hb]
    · obtain ⟨ha, hb, hp⟩ := hc
      have hns : ¬ f.n_sold = 0 := ne_of_gt ha
      simp [curren, hns, ha, hb, hp]
    · obtain ⟨ha, hb, hp, hlt⟩ := hc
      have hns : ¬ f.n_sold = 0 := ne_of_gt ha
      have hp2 : ¬ f.profit ≤ 0 := not_le.mpr hp
      have hsub : f.profit - f.prev_profit < 0 := sub_neg.mpr hlt
      simp [curren, hns, ha, hb, hp, hp2, hsub]
    · obtain ⟨ha, hb, hp, hge⟩ := hc
      have hns : ¬ f.n_sold = 0 := ne_of_gt ha
      have hp2 : ¬ f.profit ≤ 0 := not_le.mpr hp
      have hsub : ¬ f.profit - f.prev_profit < 0 := not_lt.mpr (sub_nonneg.mpr hge)
      simp [curren, hns, ha, hb, hp, hp2, hsub, hge]
  have hB : ∃ c, currenSpecRule f c := by
    rcases eq_or_lt_of_le h1 with hns | hns
    · exact ⟨0, by simp only [currenSpecRule]; exact hns.symm⟩
    · rcases eq_or_lt_of_le h2 with hlo | hlo
      · rcases le_or_lt f.profit 0 with hp | hp
        · exact ⟨2, by simp only [currenSpecRule]; exact ⟨hns, hlo.symm, hp⟩⟩
        · rcases lt_or_le f.profit f.prev_profit with hlt | hge
          · exact ⟨3, by simp only [currenSpecRule]; exact ⟨hns, hlo.symm, hp, hlt⟩⟩
          · exact ⟨4, by simp only [currenSpecRule]; exact ⟨hns, hlo.symm, hp, hge⟩⟩
      · exact ⟨1, by simp only [currenSpecRule]; exact ⟨hns, hlo⟩⟩
  obtain ⟨c, hc⟩ := hB
  exact ⟨⟨c, hc, fun y hy => Option.some.inj ((hA y hy).symm.trans (hA c hc))⟩, hA⟩

theorem curren_total_deterministic_witness :
    (0 : ℚ) ≤ ({ baseFirm with n_sold := 2, leftover := 1 } : FirmState).n_sold ∧
    (0 : ℚ) ≤ ({ baseFirm with n_sold := 2, leftover := 1 } : FirmState).leftover ∧
    ((∃! c, currenSpecRule { baseFirm with n_sold := 2, leftover := 1 } c) ∧
      ∀ c, currenSpecRule { baseFirm with n_sold := 2, leftover := 1 } c →
        curren { baseFirm with n_sold := 2, leftover := 1 } = some c) :=
  ⟨by norm_num [baseFirm], by norm_num [baseFirm],
    curren_total_deterministic _ (by norm_num [baseFirm]) (by norm_num [baseFirm])⟩

/-- C2 (code bug): `shutdown` mutates `self['workers']` while iterating over
it, so with roster `[0,1,2,3]` the first call fires only workers 0 and 2 and
leaves `[1,3]` employed; the second call does issue a fire instruction (to
worker 1) and still leaves `[3]` employed. -/
theorem shutdown_skips_workers :
    (shutdown { baseEcon with firm := { baseFirm with workers := [0, 1, 2, 3] } }).1.firm.workers
        = [1, 3] ∧
    (shutdown { baseEcon with firm := { baseFirm with workers := [0, 1, 2, 3] } }).2 = [0, 2] ∧
    (shutdown { baseEcon with firm := { baseFirm with workers := [1, 3] } }).1.firm.workers
        = [3] ∧
    (shutdown { baseEcon with firm := { baseFirm with workers := [1, 3] } }).2 = [1] := by
  refine ⟨?_, ?_, ?_, ?_⟩ <;>
    simp [shutdown, shutdownAux, fireWorker, List.erase_cons, baseEcon, baseFirm]

/-- C1 (amended): `produce` sets the quantity to
`max(1, min(desired_supply, production_capacity))` — so the quantity is `1`,
not `0`, when the capacity is `0` — and the price to
`max(0, cost_per_unit + profit_margin)`; when the capacity is at least 1 the
quantity is exactly `min(desired_supply, production_capacity)`. -/
theorem produce_amended (P : FirmParams) (st : EconState)
    (h : 1 ≤ st.firm.desired_supply) :
    (produce P st).2.1
      = max 1 (min st.firm.desired_supply ((production_capacity P st.firm : ℤ) : ℚ)) ∧
    (production_capacity P st.firm = 0 → (produce P st).2.1 = 1) ∧
    (1 ≤ production_capacity P st.firm →
      (produce P st).2.1
        = min st.firm.desired_supply ((production_capacity P st.firm : ℤ) : ℚ)) ∧
    (produce P st).2.2
      = max 0 ((st.firm.costs + (st.firm.workers.map st.wageOf).sum) / (produce P st).2.1
          + st.firm.profit_margin) := by
  refine ⟨rfl, ?_, ?_, rfl⟩
  · intro hcap
    show max 1 (min st.firm.desired_supply ((production_capacity P st.firm : ℤ) : ℚ)) = 1
    rw [hcap]
    push_cast
    rw [min_eq_right (by linarith), max_eq_left (by norm_num)]
  · intro hcap
    have hcap2 : (1 : ℚ) ≤ ((production_capacity P st.firm : ℤ) : ℚ) := by exact_mod_cast hcap
    show max 1 (min st.firm.desired_supply ((production_capacity P st.firm : ℤ) : ℚ))
      = min st.firm.desired_supply ((production_capacity P st.firm : ℤ) : ℚ)
    exact max_eq_right (le_min h hcap2)

theorem produce_amended_witness :
    (1 : ℚ) ≤ baseEcon.firm.desired_supply ∧
    ((produce P1 baseEcon).2.1
      = max 1 (min baseEcon.firm.desired_supply ((production_capacity P1 baseEcon.firm : ℤ) : ℚ)) ∧
    (production_capacity P1 baseEcon.firm = 0 → (produce P1 baseEcon).2.1 = 1) ∧
    (1 ≤ production_capacity P1 baseEcon.firm →
      (produce P1 baseEcon).2.1
        = min baseEcon.firm.desired_supply ((production_capacity P1 baseEcon.firm : ℤ) : ℚ)) ∧
    (produce P1 baseEcon).2.2
      = max 0 ((baseEcon.firm.costs + (baseEcon.firm.workers.map baseEcon.wageOf).sum)
          / (produce P1 baseEcon).2.1 + baseEcon.firm.profit_margin)) :=
  ⟨by norm_num [baseEcon, baseFirm],
    produce_amended P1 baseEcon (by norm_num [baseEcon, baseFirm])⟩

/-- C1 (counterexample): with the fresh firm and unit coefficients the
capacity is 0 yet `produce` yields quantity 1 (the claim predicts
`min(1, 0) = 0`); and with one zero-wage worker and profit margin `-5`
`produce` yields price 0, not `cost_per_unit + profit_margin = -5`. -/
theorem produce_claim_counterexample :
    production_capacity P1 baseEcon.firm = 0 ∧
    (produce P1 baseEcon).2.1 = 1 ∧
    min baseEcon.firm.desired_supply ((production_capacity P1 baseEcon.firm : ℤ) : ℚ) = 0 ∧
    (1 : ℚ) ≠ 0 ∧
    (produce P1 stNegMargin).2.2 = 0 ∧
    (stNegMargin.firm.costs + (stNegMargin.firm.workers.map stNegMargin.wageOf).sum)
        / (produce P1 stNegMargin).2.1 + stNegMargin.firm.profit_margin = -5 ∧
    (0 : ℚ) ≠ -5 := by
  refine ⟨?_, ?_, ?_, by norm_num, ?_, ?_, by norm_num⟩ <;>
    norm_num [produce, production_capacity, labor, worker_labor, equipment_labor,
      P1, stNegMargin, baseEcon, baseFirm]

theorem sellSeq_price (qs : List ℚ) (st : EconState) :
    (sellSeq st qs).firm.price = st.firm.price := by
  induction qs generalizing st with
  | nil => rfl
  | cons q qs ih => exact (ih (sell st q).1).trans rfl

theorem sellSeq_cash (qs : List ℚ) (st : EconState) :
    (sellSeq st qs).firm.cash - st.firm.cash
      = st.firm.price * ((sellSeq st qs).firm.n_sold - st.firm.n_sold) := by
  induction qs generalizing st with
  | nil => simp [sellSeq]
  | cons q qs ih =>
    have hstep : sellSeq st (q :: qs) = sellSeq (sell st q).1 qs := rfl
    have hprice : (sell st q).1.firm.price = st.firm.price := rfl
    have hcash : (sell st q).1.firm.cash
        = st.firm.cash + st.firm.price * min st.firm.supply q := rfl
    have hns : (sell st q).1.firm.n_sold
        = st.firm.n_sold + min st.firm.supply q := rfl
    have ihh := ih (sell st q).1
    rw [hstep]
    rw [hprice, hcash, hns] at ihh
    linear_combination ihh

/-- C10: across a step, `revenue` is assigned — it ends up equal to
`price * (quantity sold by the last call)` — while `cash` is credited with
`price * (total quantity sold)`; hence two genuine sales in one step leave
`revenue` different from the step's total sale proceeds. -/
theorem sell_revenue_last_call (st : EconState) (qs : List ℚ) (qlast q1 q2 : ℚ)
    (hp : 0 < st.firm.price)
    (h1 : 0 < (sell st q1).2) (h2 : 0 < (sell (sell st q1).1 q2).2) :
    (sellSeq st (qs ++ [qlast])).firm.revenue
      = st.firm.price * (sell (sellSeq st qs) qlast).2 ∧
    (sellSeq st (qs ++ [qlast])).firm.cash
      = st.firm.cash
        + st.firm.price * ((sellSeq st (qs ++ [qlast])).firm.n_sold - st.firm.n_sold) ∧
    (sell (sell st q1).1 q2).1.firm.revenue
      ≠ st.firm.price * ((sell st q1).2 + (sell (sell st q1).1 q2).2) := by
  refine ⟨?_, ?_, ?_⟩
  · have happ : sellSeq st (qs ++ [qlast]) = (sell (sellSeq st qs) qlast).1 := by
      simp [sellSeq, List.foldl_append]
    rw [happ]
    have : (sell (sellSeq st qs) qlast).1.firm.revenue
        = (sellSeq st qs).firm.price * (sell (sellSeq st qs) qlast).2 := rfl
    rw [this, sellSeq_price]
  · have := sellSeq_cash (qs ++ [qlast]) st
    linarith
  · have hrev : (sell (sell st q1).1 q2).1.firm.revenue
        = st.firm.price * (sell (sell st q1).1 q2).2 := rfl
    rw [hrev, mul_add]
    have hpos : 0 < st.firm.price * (sell st q1).2 := mul_pos hp h1
    intro heq
    nlinarith [h2]

theorem sell_revenue_last_call_witness :
    (0 : ℚ) < ({ baseEcon with firm := { baseFirm with supply := 10, price := 2 } }
        : EconState).firm.price ∧
    (0 : ℚ) < (sell { baseEcon with firm := { baseFirm with supply := 10, price := 2 } } 3).2 ∧
    (0 : ℚ) < (sell (sell { baseEcon with firm := { baseFirm with supply := 10, price := 2 } } 3).1 4).2 ∧
    (sell (sell { baseEcon with firm := { baseFirm with supply := 10, price := 2 } } 3).1 4).1.firm.revenue
      ≠ ({ baseEcon with firm := { baseFirm with supply := 10, price := 2 } }
          : EconState).firm.price
        * ((sell { baseEcon with firm := { baseFirm with supply := 10, price := 2 } } 3).2
          + (sell (sell { baseEcon with firm := { baseFirm with supply := 10, price := 2 } } 3).1 4).2) :=
  ⟨by norm_num [baseEcon, baseFirm], by norm_num [sell, baseEcon, baseFirm],
    by norm_num [sell, baseEcon, baseFirm],
    (sell_revenue_last_call _ [] 0 3 4 (by norm_num [baseEcon, baseFirm])
      (by norm_num [sell, baseEcon, baseFirm])
      (by norm_num [sell, baseEcon, baseFirm])).2.2⟩

theorem totalLabor_monotone_witness :
    (0 : ℚ) ≤ 2 ∧ (0 : ℚ) ≤ 3 ∧
    totalLabor ⟨1, 1, 3, 2, 1, 1, 1⟩ 1 5 ≤ totalLabor ⟨1, 1, 3, 2, 1, 1, 1⟩ 4 5 := by
  refine ⟨by norm_num, by norm_num, ?_⟩
  exact (totalLabor_monotone ⟨1, 1, 3, 2, 1, 1, 1⟩ (by norm_num) (by norm_num)).1
    1 4 5 (by norm_num)

theorem labor_eq_totalLabor (P : FirmParams) (f : FirmState) :
    labor P f = totalLabor P f.workers.length f.equipment := rfl

/-- C7: any optimizer answer that satisfies the labor constraint still
satisfies it after the component-wise ceiling of `assess_assets`
(for non-negative labor coefficients). -/
theorem assess_assets_ceil_labor (P : FirmParams) (required_labor : ℚ) (x : ℚ × ℚ × ℚ)
    (hw : 0 ≤ P.labor_per_worker) (he : 0 ≤ P.labor_per_equipment)
    (hc : 0 ≤ assessConstraint P required_labor x) :
    required_labor
      ≤ ((assess_assets x).1 : ℚ) * P.labor_per_worker
        + ((min (assess_assets x).1 (assess_assets x).2.2 : ℤ) : ℚ) * P.labor_per_equipment := by
  have h1 : x.1 ≤ ((⌈x.1⌉ : ℤ) : ℚ) := Int.le_ceil x.1
  have h3 : x.2.2 ≤ ((⌈x.2.2⌉ : ℤ) : ℚ) := Int.le_ceil x.2.2
  have hA : x.1 * P.labor_per_worker ≤ ((⌈x.1⌉ : ℤ) : ℚ) * P.labor_per_worker :=
    mul_le_mul_of_nonneg_right h1 hw
  have hcast : ((min ⌈x.1⌉ ⌈x.2.2⌉ : ℤ) : ℚ) = min ((⌈x.1⌉ : ℤ) : ℚ) ((⌈x.2.2⌉ : ℤ) : ℚ) := by
    push_cast
    rfl
  have hB : min (x.1 * P.labor_per_equipment) (x.2.2 * P.labor_per_equipment)
      ≤ ((min ⌈x.1⌉ ⌈x.2.2⌉ : ℤ) : ℚ) * P.labor_per_equipment := by
    rw [hcast]
    rcases le_total ((⌈x.1⌉ : ℤ) : ℚ) ((⌈x.2.2⌉ : ℤ) : ℚ) with hm | hm
    · rw [min_eq_left hm]
      exact le_trans (min_le_left _ _) (mul_le_mul_of_nonneg_right h1 he)
    · rw [min_eq_right hm]
      exact le_trans (min_le_right _ _) (mul_le_mul_of_nonneg_right h3 he)
  simp only [assess_assets]
  unfold assessConstraint at hc
  linarith

theorem assess_assets_ceil_labor_witness :
    (0 : ℚ) ≤ P1.labor_per_worker ∧ (0 : ℚ) ≤ P1.labor_per_equipment ∧
    0 ≤ assessConstraint P1 3 (5/2, 3, 6/5) ∧
    (3 : ℚ) ≤ ((assess_assets (5/2, 3, 6/5)).1 : ℚ) * P1.labor_per_worker
      + ((min (assess_assets (5/2, 3, 6/5)).1 (assess_assets (5/2, 3, 6/5)).2.2 : ℤ) : ℚ)
        * P1.labor_per_equipment :=
  ⟨by norm_num [P1], by norm_num [P1],
    by norm_num [assessConstraint, P1, min_def],
    assess_assets_ceil_labor P1 3 (5/2, 3, 6/5) (by norm_num [P1]) (by norm_num [P1])
      (by norm_num [assessConstraint, P1, min_def])⟩

/-- C4: when the total shortfall cost is positive, both purchase methods buy
exactly `min(supplier_supply, floor(budget / price))` with
`budget = clamp(cash, 0, total_shortfall_cost)`, add exactly that quantity
to stock, and debit cash by exactly `quantity * price`. -/
theorem purchase_spends_within_budget (P : FirmParams) (st : EconState) (price supply : ℚ)
    (hp : 0 ≤ price) (hs : 0 ≤ supply) :
    (0 < total_equipment_cost st price →
      ∃ r, purchase_equipment st price supply = some r ∧
        r.2.2 = min supply (affordable st.firm.cash (total_equipment_cost st price) price) ∧
        r.1.firm.equipment = st.firm.equipment + r.2.2 ∧
        r.1.firm.cash = st.firm.cash - r.2.2 * price) ∧
    (P.labor_cost_per_good ≠ 0 → 0 < total_material_cost P st.firm price →
      ∃ r, purchase_materials P st price supply = some r ∧
        r.2.2 = min supply (affordable st.firm.cash (total_material_cost P st.firm price) price) ∧
        r.1.firm.materials = st.firm.materials + r.2.2 ∧
        r.1.firm.cash = st.firm.cash - r.2.2 * price) := by
  constructor
  · intro hc
    have hcne : total_equipment_cost st price ≠ 0 := ne_of_gt hc
    have hpne : price ≠ 0 := by
      intro h0
      rw [total_equipment_cost, h0, mul_zero] at hc
      exact lt_irrefl 0 hc
    simp only [purchase_equipment, if_neg hcne, if_neg hpne, Option.map_some']
    exact ⟨_, rfl, rfl, rfl, rfl⟩
  · intro hlcg hc
    have hcne : total_material_cost P st.firm price ≠ 0 := ne_of_gt hc
    have hpne : price ≠ 0 := by
      intro h0
      rw [total_material_cost, h0, mul_zero] at hc
      exact lt_irrefl 0 hc
    simp only [purchase_materials, if_neg hlcg, if_neg hcne, if_neg hpne, Option.map_some']
    exact ⟨_, rfl, rfl, rfl, rfl⟩

theorem purchase_spends_within_budget_witness :
    (0 : ℚ) ≤ 10 ∧ (0 : ℚ) ≤ 3 ∧ 0 < total_equipment_cost stShort 10 ∧
    (∃ r, purchase_equipment stShort 10 3 = some r ∧
        r.2.2 = min 3 (affordable stShort.firm.cash (total_equipment_cost stShort 10) 10) ∧
        r.1.firm.equipment = stShort.firm.equipment + r.2.2 ∧
        r.1.firm.cash = stShort.firm.cash - r.2.2 * 10) :=
  ⟨by norm_num, by norm_num,
    by norm_num [total_equipment_cost, stShort, baseEcon, baseFirm],
    (purchase_spends_within_budget P1 stShort 10 3 (by norm_num) (by norm_num)).1
      (by norm_num [total_equipment_cost, stShort, baseEcon, baseFirm])⟩

/-- C9 (amended): both purchase methods are total for every price (given a
nonzero `labor_cost_per_good` for the materials variant): the division is
reached only when the shortfall cost is nonzero, which forces the price to
be nonzero; a zero price takes the zero-cost branch, making the affordable
quantity exactly the shortfall clamped at 0 and the purchase
`min(supplier_supply, that)`. -/
theorem purchase_total_zero_price (P : FirmParams) (st : EconState) (price supply : ℚ)
    (hp : 0 ≤ price) (hlcg : P.labor_cost_per_good ≠ 0) :
    (total_equipment_cost st price ≠ 0 → price ≠ 0) ∧
    (purchase_equipment st price supply).isSome = true ∧
    (purchase_materials P st price supply).isSome = true ∧
    (price = 0 →
      ∃ r, purchase_equipment st price supply = some r ∧
        r.2.2 = min supply (max 0 (st.firm.desired_equipment - st.firm.equipment))) ∧
    (price = 0 →
      ∃ r, purchase_materials P st price supply = some r ∧
        r.2.2 = min supply (max 0 (required_materials P st.firm - st.firm.materials))) := by
  have hkey : ∀ c : ℚ, c * price ≠ 0 → price ≠ 0 := by
    intro c hc h0
    rw [h0, mul_zero] at hc
    exact hc rfl
  refine ⟨hkey _, ?_, ?_, ?_, ?_⟩
  · by_cases h0 : total_equipment_cost st price = 0
    · simp [purchase_equipment, h0]
    · simp [purchase_equipment, h0, hkey _ h0]
  · by_cases h0 : total_material_cost P st.firm price = 0
    · simp [purchase_materials, hlcg, h0]
    · simp [purchase_materials, hlcg, h0, hkey _ h0]
  · intro h0
    subst h0
    have hc0 : total_equipment_cost st 0 = 0 := by
      rw [total_equipment_cost, mul_zero]
    simp only [purchase_equipment, if_pos hc0, Option.map_some']
    exact ⟨_, rfl, rfl⟩
  · intro h0
    subst h0
    have hc0 : total_material_cost P st.firm 0 = 0 := by
      rw [total_material_cost, mul_zero]
    simp only [purchase_materials, if_neg hlcg, if_pos hc0, Option.map_some']
    exact ⟨_, rfl, rfl⟩

theorem purchase_total_zero_price_witness :
    (0 : ℚ) ≤ 0 ∧ P1.labor_cost_per_good ≠ 0 ∧
    ((total_equipment_cost stShort 0 ≠ 0 → (0 : ℚ) ≠ 0) ∧
    (purchase_equipment stShort 0 2).isSome = true ∧
    (purchase_materials P1 stShort 0 2).isSome = true ∧
    ((0 : ℚ) = 0 →
      ∃ r, purchase_equipment stShort 0 2 = some r ∧
        r.2.2 = min 2 (max 0 (stShort.firm.desired_equipment - stShort.firm.equipment))) ∧
    ((0 : ℚ) = 0 →
      ∃ r, purchase_materials P1 stShort 0 2 = some r ∧
        r.2.2 = min 2 (max 0 (required_materials P1 stShort.firm - stShort.firm.materials)))) :=
  ⟨le_refl 0, by norm_num [P1],
    purchase_total_zero_price P1 stShort 0 2 (le_refl 0) (by norm_num [P1])⟩

/-- C9 (counterexample to the claim as stated): a zero price does not yield
"a purchase of exactly the shortfall (clamped at 0)" — the purchase is still
capped by the supplier's supply.  With a shortfall of 5 and a zero-price
supplier holding only 2 units, the firm purchases 2, not 5. -/
theorem zero_price_purchase_counterexample :
    ((purchase_equipment stShort 0 2).map fun r => r.2.2) = some 2 ∧
    max 0 (stShort.firm.desired_equipment - stShort.firm.equipment) = 5 ∧
    (2 : ℚ) ≠ 5 := by
  refine ⟨?_, ?_, by norm_num⟩ <;>
    norm_num [purchase_equipment, total_equipment_cost, pay, stShort, baseEcon, baseFirm]

theorem poach_worker_change (selfId : ℕ) (st : EconState) (w : ℕ) :
    (poach selfId st w).firm.worker_change = st.firm.worker_change := by
  unfold poach
  split
  · rfl
  · split <;> rfl

theorem poach_supply (selfId : ℕ) (st : EconState) (w : ℕ) :
    (poach selfId st w).firm.supply = st.firm.supply := by
  unfold poach
  split
  · rfl
  · split <;> rfl

theorem poach_workers_cases (selfId : ℕ) (st : EconState) (w : ℕ) :
    (poach selfId st w).firm.workers = st.firm.workers.erase w ∨
    (poach selfId st w).firm.workers = st.firm.workers := by
  unfold poach
  split
  · exact Or.inr rfl
  · split
    · exact Or.inl rfl
    · exact Or.inr rfl

/-- Lemma: `poach` preserves the roster/employer agreement, keeps the roster
duplicate-free, and leaves the poached worker outside the roster. -/
theorem poach_inv (selfId : ℕ) (st : EconState) (w : ℕ)
    (hnd : st.firm.workers.Nodup)
    (hcons : ∀ v, v ∈ st.firm.workers ↔ st.emp v = some selfId) :
    (poach selfId st w).firm.workers.Nodup ∧
    (∀ v, v ∈ (poach selfId st w).firm.workers
      ↔ (poach selfId st w).emp v = some selfId) ∧
    w ∉ (poach selfId st w).firm.workers := by
  rcases h0 : st.emp w with _ | f
  · have hpe : poach selfId st w = st := by simp [poach, h0]
    rw [hpe]
    have hwm : w ∉ st.firm.workers := by
      rw [hcons w, h0]
      simp
    exact ⟨hnd, hcons, hwm⟩
  · by_cases hf : f = selfId
    · rw [hf] at h0
      have hpe : poach selfId st w = fireWorker st w := by simp [poach, h0]
      rw [hpe]
      unfold fireWorker
      refine ⟨hnd.erase w, ?_, fun hm => (hnd.mem_erase_iff.mp hm).1 rfl⟩
      intro v
      by_cases hvw : v = w
      · subst hvw
        exact iff_of_false (fun hm => (hnd.mem_erase_iff.mp hm).1 rfl) (by simp)
      · rw [List.mem_erase_of_ne hvw, hcons v]
        simp [hvw]
    · have hpe : poach selfId st w
          = { st with emp := fun v => if v = w then none else st.emp v } := by
        simp [poach, h0, hf]
      rw [hpe]
      have hwm : w ∉ st.firm.workers := by
        rw [hcons w, h0]
        simp [hf]
      refine ⟨hnd, ?_, hwm⟩
      intro v
      by_cases hvw : v = w
      · subst hvw
        exact iff_of_false hwm (by simp)
      · rw [hcons v]
        simp [hvw]

/-- Appending a fresh worker `w` to a clean roster while pointing its
employer field at this firm preserves the invariant. -/
theorem hire_append_inv (selfId : ℕ) (st1 : EconState) (w : ℕ)
    (hnd1 : st1.firm.workers.Nodup)
    (hcons1 : ∀ v, v ∈ st1.firm.workers ↔ st1.emp v = some selfId)
    (hwn1 : w ∉ st1.firm.workers) :
    (st1.firm.workers ++ [w]).Nodup ∧
    ∀ v, v ∈ st1.firm.workers ++ [w]
      ↔ (if v = w then some selfId else st1.emp v) = some selfId := by
  constructor
  · simp [List.nodup_append, hnd1, hwn1]
  · intro v
    by_cases hvw : v = w
    · subst hvw
      simp
    · simp [hvw, hcons1 v]

/-- One unfolding of the hiring loop when vacancies and applicants remain. -/
theorem hireAux_step (selfId : ℕ) (oracle : ℕ → ℕ) (wage : ℚ) (k : ℕ) (st : EconState)
    (applicants hired : List ℕ) (h : 0 < st.firm.worker_change ∧ applicants ≠ []) :
    hireAux selfId oracle wage k st applicants hired
      = hireAux selfId oracle wage (k+1)
          (hireStep selfId wage st (applicants.get
            ⟨oracle k % applicants.length, Nat.mod_lt _ (List.length_pos.mpr h.2)⟩))
          (applicants.erase (applicants.get
            ⟨oracle k % applicants.length, Nat.mod_lt _ (List.length_pos.mpr h.2)⟩))
          (hired ++ [applicants.get
            ⟨oracle k % applicants.length, Nat.mod_lt _ (List.length_pos.mpr h.2)⟩]) := by
  rw [hireAux, dif_pos h]

theorem hireAux_supply (selfId : ℕ) (oracle : ℕ → ℕ) (wage : ℚ) (k : ℕ) (st : EconState)
    (applicants hired : List ℕ) :
    (hireAux selfId oracle wage k st applicants hired).1.firm.supply
      = st.firm.supply := by
  induction k, st, applicants, hired using hireAux.induct selfId oracle wage with
  | case1 k st applicants hired h w ih =>
      rw [hireAux, dif_pos h]
      exact ih.trans (poach_supply selfId st w)
  | case2 k st applicants hired h =>
      rw [hireAux, dif_neg h]

/-- The hiring loop keeps the roster duplicate-free and agreeing with the
worker-side employer fields. -/
theorem hireAux_inv (selfId : ℕ) (oracle : ℕ → ℕ) (wage : ℚ) (k : ℕ) (st : EconState)
    (applicants hired : List ℕ)
    (hnd : st.firm.workers.Nodup)
    (hcons : ∀ v, v ∈ st.firm.workers ↔ st.emp v = some selfId) :
    (hireAux selfId oracle wage k st applicants hired).1.firm.workers.Nodup ∧
    ∀ v, v ∈ (hireAux selfId oracle wage k st applicants hired).1.firm.workers
      ↔ (hireAux selfId oracle wage k st applicants hired).1.emp v = some selfId := by
  revert hnd hcons
  induction k, st, applicants, hired using hireAux.induct selfId oracle wage with
  | case1 k st applicants hired h w ih =>
      intro hnd hcons
      rw [hireAux, dif_pos h]
      obtain ⟨hnd1, hcons1, hwn1⟩ := poach_inv selfId st w hnd hcons
      obtain ⟨hnd3, hcons3⟩ := hire_append_inv selfId (poach selfId st w) w hnd1 hcons1 hwn1
      exact ih hnd3 hcons3
  | case2 k st applicants hired h =>
      intro hnd hcons
      rw [hireAux, dif_neg h]
      exact ⟨hnd, hcons⟩

/-- Each loop iteration removes exactly one applicant and one vacancy, so the
pool shrinks by at most the initial vacancy count. -/
theorem hireAux_apps_bound (selfId : ℕ) (oracle : ℕ → ℕ) (wage : ℚ) (k : ℕ)
    (st : EconState) (applicants hired : List ℕ) :
    applicants.length
      ≤ (hireAux selfId oracle wage k st applicants hired).2.1.length
        + st.firm.worker_change.toNat := by
  induction k, st, applicants, hired using hireAux.induct selfId oracle wage with
  | case1 k st applicants hired h w ih =>
      rw [hireAux, dif_pos h]
      show applicants.length
        ≤ (hireAux selfId oracle wage (k+1) (hireStep selfId wage st w)
            (applicants.erase w) (hired ++ [w])).2.1.length
          + st.firm.worker_change.toNat
      have hw : w ∈ applicants := List.get_mem applicants _ _
      have hlen := List.length_erase_of_mem hw
      have hpos : 0 < applicants.length := List.length_pos.mpr h.2
      have h1 := h.1
      have ih2 : _ ≤ _ + (st.firm.worker_change - 1).toNat := ih
      omega
  | case2 k st applicants hired h =>
      rw [hireAux, dif_neg h]
      exact Nat.le_add_right _ _

/-- Every worker on the accumulated hired list ends up on the final roster. -/
theorem hireAux_hired_mem (selfId : ℕ) (oracle : ℕ → ℕ) (wage : ℚ) (k : ℕ)
    (st : EconState) (applicants hired : List ℕ)
    (hsub : ∀ v ∈ hired, v ∈ st.firm.workers) :
    ∀ v ∈ (hireAux selfId oracle wage k st applicants hired).2.2,
      v ∈ (hireAux selfId oracle wage k st applicants hired).1.firm.workers := by
  revert hsub
  induction k, st, applicants, hired using hireAux.induct selfId oracle wage with
  | case1 k st applicants hired h w ih =>
      intro hsub
      rw [hireAux, dif_pos h]
      refine ih ?_
      intro v hv
      show v ∈ (poach selfId st w).firm.workers ++ [w]
      rcases List.mem_append.mp hv with hv1 | hv2
      · by_cases hvw : v = w
        · exact List.mem_append.mpr (Or.inr (by simp [hvw]))
        · refine List.mem_append.mpr (Or.inl ?_)
          rcases poach_workers_cases selfId st w with hcase | hcase
          · rw [hcase]
            exact (List.mem_erase_of_ne hvw).mpr (hsub v hv1)
          · rw [hcase]
            exact hsub v hv1
      · exact List.mem_append.mpr (Or.inr hv2)
  | case2 k st applicants hired h =>
      intro hsub
      rw [hireAux, dif_neg h]
      exact hsub

/-- C5: hiring removes at most `worker_change` applicants from the pool,
keeps the roster duplicate-free (so no worker is hired onto a roster that
already holds it) with every hired worker on it, and reports the residual
vacancy count together with the input wage raised by one `wage_increment`
exactly when vacancies remain — no error path. -/
theorem hire_bounds (P : FirmParams) (selfId : ℕ) (oracle : ℕ → ℕ) (st : EconState)
    (applicants : List ℕ) (wage : ℚ)
    (hnd : st.firm.workers.Nodup)
    (hcons : ∀ v, v ∈ st.firm.workers ↔ st.emp v = some selfId) :
    applicants.length
      ≤ (hire P selfId oracle st applicants wage).2.2.1.length
        + st.firm.worker_change.toNat ∧
    (hire P selfId oracle st applicants wage).1.firm.workers.Nodup ∧
    (∀ v ∈ (hire P selfId oracle st applicants wage).2.1,
      v ∈ (hire P selfId oracle st applicants wage).1.firm.workers) ∧
    (hire P selfId oracle st applicants wage).2.2.2.1
      = (hire P selfId oracle st applicants wage).1.firm.worker_change ∧
    (hire P selfId oracle st applicants wage).2.2.2.2
      = (if 0 < (hire P selfId oracle st applicants wage).1.firm.worker_change
          then wage + P.wage_increment else wage) := by
  refine ⟨?_, ?_, ?_, rfl, rfl⟩
  · exact hireAux_apps_bound selfId oracle wage 0 st applicants []
  · exact (hireAux_inv selfId oracle wage 0 st applicants [] hnd hcons).1
  · exact hireAux_hired_mem selfId oracle wage 0 st applicants []
      (fun v hv => absurd hv (List.not_mem_nil v))

theorem hire_bounds_witness :
    stHire.firm.workers.Nodup ∧
    (∀ v, v ∈ stHire.firm.workers ↔ stHire.emp v = some 0) ∧
    ([5, 6, 7] : List ℕ).length
      ≤ (hire P1 0 (fun _ => 0) stHire [5, 6, 7] 9).2.2.1.length
        + stHire.firm.worker_change.toNat ∧
    (hire P1 0 (fun _ => 0) stHire [5, 6, 7] 9).1.firm.workers.Nodup ∧
    (∀ v ∈ (hire P1 0 (fun _ => 0) stHire [5, 6, 7] 9).2.1,
      v ∈ (hire P1 0 (fun _ => 0) stHire [5, 6, 7] 9).1.firm.workers) ∧
    (hire P1 0 (fun _ => 0) stHire [5, 6, 7] 9).2.2.2.1
      = (hire P1 0 (fun _ => 0) stHire [5, 6, 7] 9).1.firm.worker_change ∧
    (hire P1 0 (fun _ => 0) stHire [5, 6, 7] 9).2.2.2.2
      = (if 0 < (hire P1 0 (fun _ => 0) stHire [5, 6, 7] 9).1.firm.worker_change
          then 9 + P1.wage_increment else 9) :=
  ⟨by simp [stHire, baseEcon, baseFirm],
    by simp [stHire, baseEcon, baseFirm],
    hire_bounds P1 0 (fun _ => 0) stHire [5, 6, 7] 9
      (by simp [stHire, baseEcon, baseFirm]) (by simp [stHire, baseEcon, baseFirm])⟩

theorem shutdownAux_supply (i : ℕ) (st : EconState) (fired : List ℕ) :
    (shutdownAux i st fired).1.firm.supply = st.firm.supply := by
  induction i, st, fired using shutdownAux.induct with
  | case1 i st fired h w ih =>
      rw [shutdownAux, dif_pos h]
      exact ih
  | case2 i st fired h =>
      rw [shutdownAux, dif_neg h]

theorem fireLoopSPT_supply (oracle : ℕ → ℕ) (k : ℕ) (st : EconState) :
    ∀ r, fireLoopSPT oracle k st = some r → r.firm.supply = st.firm.supply := by
  induction k, st using fireLoopSPT.induct oracle with
  | case1 k st h hne =>
      intro r hr
      rw [fireLoopSPT, dif_pos h, dif_pos hne] at hr
      simp at hr
  | case2 k st h hne w ih =>
      intro r hr
      rw [fireLoopSPT, dif_pos h, dif_neg hne] at hr
      exact ih r hr
  | case3 k st h =>
      intro r hr
      rw [fireLoopSPT, dif_neg h] at hr
      rw [← Option.some.inj hr]

theorem purchase_equipment_supply (st : EconState) (price supply : ℚ) :
    ∀ r, purchase_equipment st price supply = some r
      → r.1.firm.supply = st.firm.supply := by
  intro r hr
  simp only [purchase_equipment] at hr
  obtain ⟨n, hn, hgr⟩ := Option.map_eq_some'.mp hr
  rw [← hgr]
  simp [pay]

theorem purchase_materials_supply (P : FirmParams) (st : EconState) (price supply : ℚ) :
    ∀ r, purchase_materials P st price supply = some r
      → r.1.firm.supply = st.firm.supply := by
  intro r hr
  simp only [purchase_materials] at hr
  by_cases hl : P.labor_cost_per_good = 0
  · rw [if_pos hl] at hr
    simp at hr
  · rw [if_neg hl] at hr
    obtain ⟨n, hn, hgr⟩ := Option.map_eq_some'.mp hr
    rw [← hgr]
    simp [pay]

/-- C6: every public operation keeps `supply` non-negative: the production
target step resets it to 0, `produce` sets it to at least 1, `sell` removes
at most what is there (for a non-negative requested quantity), and hiring,
firing, shutdown and both purchases leave it untouched. -/
theorem supply_nonneg_preserved (P : FirmParams) (selfId : ℕ) (oracle : ℕ → ℕ)
    (st : EconState) (q price supply wage : ℚ) (w : ℕ) (applicants : List ℕ)
    (actionIdx : Fin 6) (x : ℚ × ℚ × ℚ)
    (hs : 0 ≤ st.firm.supply) (hq : 0 ≤ q) :
    (∀ r, set_production_target P actionIdx x oracle st = some r
      → 0 ≤ r.1.firm.supply) ∧
    0 ≤ (produce P st).1.firm.supply ∧
    0 ≤ (sell st q).1.firm.supply ∧
    0 ≤ (hire P selfId oracle st applicants wage).1.firm.supply ∧
    (∀ r, fire st w = some r → 0 ≤ r.firm.supply) ∧
    0 ≤ (shutdown st).1.firm.supply ∧
    (∀ r, purchase_equipment st price supply = some r → 0 ≤ r.1.firm.supply) ∧
    (∀ r, purchase_materials P st price supply = some r → 0 ≤ r.1.firm.supply) := by
  refine ⟨?_, ?_, ?_, ?_, ?_, ?_, ?_, ?_⟩
  · intro r hr
    simp only [set_production_target] at hr
    obtain ⟨st2, hst2, hgr⟩ := Option.map_eq_some'.mp hr
    have hsup := fireLoopSPT_supply oracle 0 _ st2 hst2
    rw [← hgr]
    show (0:ℚ) ≤ st2.firm.supply
    rw [hsup]
  · show (0:ℚ) ≤ max 1 (min st.firm.desired_supply ((production_capacity P st.firm : ℤ) : ℚ))
    exact le_trans zero_le_one (le_max_left _ _)
  · show (0:ℚ) ≤ st.firm.supply - min st.firm.supply q
    have := min_le_left st.firm.supply q
    linarith
  · have := hireAux_supply selfId oracle wage 0 st applicants []
    exact le_of_le_of_eq hs this.symm
  · intro r hr
    simp only [fire] at hr
    by_cases hm : w ∈ st.firm.workers
    · rw [if_pos hm] at hr
      rw [← Option.some.inj hr]
      exact hs
    · rw [if_neg hm] at hr
      simp at hr
  · have := shutdownAux_supply 0 st []
    exact le_of_le_of_eq hs this.symm
  · intro r hr
    exact le_of_le_of_eq hs (purchase_equipment_supply st price supply r hr).symm
  · intro r hr
    exact le_of_le_of_eq hs (purchase_materials_supply P st price supply r hr).symm

theorem supply_nonneg_preserved_witness :
    (0:ℚ) ≤ baseEcon.firm.supply ∧ (0:ℚ) ≤ (1:ℚ) ∧
    (∀ r, set_production_target P1 0 (1, 1, 1) (fun _ => 0) baseEcon = some r
      → 0 ≤ r.1.firm.supply) ∧
    0 ≤ (produce P1 baseEcon).1.firm.supply ∧
    0 ≤ (sell baseEcon 1).1.firm.supply ∧
    0 ≤ (hire P1 0 (fun _ => 0) baseEcon [] 1).1.firm.supply ∧
    (∀ r, fire baseEcon 0 = some r → 0 ≤ r.firm.supply) ∧
    0 ≤ (shutdown baseEcon).1.firm.supply ∧
    (∀ r, purchase_equipment baseEcon 1 1 = some r → 0 ≤ r.1.firm.supply) ∧
    (∀ r, purchase_materials P1 baseEcon 1 1 = some r → 0 ≤ r.1.firm.supply) :=
  ⟨by norm_num [baseEcon, baseFirm], by norm_num,
    supply_nonneg_preserved P1 0 (fun _ => 0) baseEcon 1 1 1 1 0 [] 0 (1, 1, 1)
      (by norm_num [baseEcon, baseFirm]) (by norm_num)⟩

end Cess
